import Mathlib

/-!
Verification of the ledger core of `Ez_yawmya.py` (RestaurantFinanceApp).

Modelling conventions, each justified against the source:

* A spreadsheet row (one day of data, columns
  `Date, Cash, Credit, Credit Withdraw, Total Sellings, Total Credit,
  Total Cash, Total Expenses, Expenses`) is the structure `DailyRecord`.
* Dates are modelled as `Nat` (day numbers).  In the source dates are the
  fixed-format strings `'yyyy-MM-dd'` produced by `QDate.toString`, whose
  lexicographic order coincides with calendar order, so `pandas
  sort_values('Date')` sorts chronologically; "the previous day"
  (`addDays(-1)`) becomes `d - 1`.  The string-level `str.contains`
  lookup of the source is modelled separately (`dateExistsContains`) and
  related to date equality for fixed-length date strings.
* Money amounts (Python floats) are modelled as `Int`: the spec's claims
  are exact algebraic identities about sums and differences, which is
  what the embedding checks.
* The `Expenses` column is either a textual list of `(name, amount)`
  pairs or the no-expenses marker string; both are modelled as
  `List (String × Int)`, the marker being `[]` (exactly how
  `load_data` turns the marker back into `self.expenses = []`).
* `pandas` details: after each write the frame is re-read
  (`save_data` line 859), so row labels equal positions; `df.at[1, c]`
  is position 1, `df.iloc[i:, c] += δ` adds `δ` to the column `c` of
  every row at position ≥ i (modelled by `addFromIdx`).
-/

namespace EzYawmya

/-- One row of `data/restaurant_finance.xlsx`, with the columns used by
`RestaurantFinanceApp` (source order: Date, Cash, Credit, Credit
Withdraw, Total Sellings, Total Credit, Total Cash, Total Expenses,
Expenses). -/
structure DailyRecord where
  date : Nat
  cash : Int
  credit : Int
  creditWithdraw : Int
  totalSellings : Int
  totalCredit : Int
  totalCash : Int
  totalExpenses : Int
  expenses : List (String × Int)
deriving DecidableEq

/-- Default record used to totalise list indexing (`List.getD`); it is
only ever read at indices proved to be in range. -/
def emptyRec : DailyRecord :=
  { date := 0, cash := 0, credit := 0, creditWithdraw := 0,
    totalSellings := 0, totalCredit := 0, totalCash := 0,
    totalExpenses := 0, expenses := [] }

/-- `df.iloc[i:, 'Total Credit'] += dc; df.iloc[i:, 'Total Cash'] += dk`
applied to a single row: only the two running-total columns change. -/
def shiftRec (r : DailyRecord) (dc dk : Int) : DailyRecord :=
  { r with totalCredit := r.totalCredit + dc, totalCash := r.totalCash + dk }

/-- `sum(amount for _, amount in self.expenses)` (calculate_totals line 792). -/
def sumAmounts (expenses : List (String × Int)) : Int :=
  (expenses.map Prod.snd).sum

/-- `df.iloc[idx:, col] += δ` for the two running-total columns
(save_data lines 868-869, 876-877, 891-892): every row at position ≥ idx
is shifted, earlier rows are untouched. -/
def addFromIdx : List DailyRecord → Nat → Int → Int → List DailyRecord
  | [], _, _, _ => []
  | r :: rs, 0, dc, dk => shiftRec r dc dk :: addFromIdx rs 0 dc dk
  | r :: rs, i + 1, dc, dk => r :: addFromIdx rs i dc dk

/-- `pd.concat([df, new_row]); df.sort_values('Date')`
(save_data lines 854-855): the appended row ends up directly before the
first existing row with a strictly later date (dates in the fresh-insert
branch are unique, so stability is irrelevant). -/
def insertSorted : List DailyRecord → DailyRecord → List DailyRecord
  | [], data => [data]
  | r :: rs, data =>
      if data.date < r.date then data :: r :: rs
      else r :: insertSorted rs data

/-- `RestaurantFinanceApp.save_data` (lines 822-900) on the in-memory
frame.  `data` is the row being saved.  Date existence is decided by
date equality; the source's `str.contains` test coincides with equality
for the app's fixed-format date strings (see `containsSub_eq_beq_of_length`).
The final `df.sort_values('Date')` (line 899) is the identity on the
already-sorted output and is therefore not repeated here. -/
def saveData (df : List DailyRecord) (data : DailyRecord) : List DailyRecord :=
  let dateExists := df.any (fun r => r.date == data.date)
  if df.isEmpty then
    -- lines 846-850: empty frame, just append
    df ++ [data]
  else if !dateExists then
    -- lines 852-877: fresh insert, sort, then forward propagation
    let df1 := insertSorted df data
    let idx := df1.findIdx (fun r => r.date == data.date)
    let df2 :=
      if idx = 0 then
        -- lines 862-869: new first row, back-computed bootstrap delta
        let r1 := df1.getD 1 emptyRec
        addFromIdx df1 1 (data.totalCredit - r1.totalCredit)
          (data.totalCash - r1.totalCash)
      else df1
    -- lines 871-877: idx += 1, then per-field flow diff from there on
    addFromIdx df2 (idx + 1) (data.credit - data.creditWithdraw)
      (data.cash + data.creditWithdraw - data.totalExpenses)
  else
    -- lines 879-896: edit of an existing date
    let idx := df.findIdx (fun r => r.date == data.date)
    let current := df.getD idx emptyRec
    let df1 := addFromIdx df idx (data.totalCredit - current.totalCredit)
      (data.totalCash - current.totalCash)
    df1.set idx data

/-- The backward scan of `load_data` (lines 756-762) from index `i` down:
stop at the first index whose date is strictly before the query;
falling through the whole loop leaves `last_day_data = df.iloc[0]`
(line 747), i.e. index 0. -/
def scanBackAux (df : List DailyRecord) (q : Nat) : Nat → Nat
  | 0 => 0
  | i + 1 =>
      if (df.getD (i + 1) emptyRec).date < q then i + 1
      else scanBackAux df q i

/-- Index of the record chosen by `load_data`'s backward scan
(`for idx in range(len(df) - 1, -1, -1)`). -/
def scanBack (df : List DailyRecord) (q : Nat) : Nat :=
  scanBackAux df q (df.length - 1)

/-- Outcome of `load_data` for a query date, in the spec's resolver
vocabulary (§4.3).  `exact today prev` carries the matched row and its
predecessor (lines 718-719); `interpolated prior` carries the
nearest-prior row found by the backward scan (line 761). -/
inductive ResolvedContext where
  | needsBootstrap : ResolvedContext
  | exact : DailyRecord → DailyRecord → ResolvedContext
  | interpolated : DailyRecord → ResolvedContext
deriving DecidableEq

/-- The opening balances `(last_day_credit, last_day_cash)` the UI is
pre-filled with: from the predecessor row on an exact match (lines
720-721), from the nearest-prior row on an interpolated match (lines
765-766); none when the bootstrap dialog is required. -/
def resolvedLastDay : ResolvedContext → Option (Int × Int)
  | .needsBootstrap => none
  | .exact _ prev => some (prev.totalCredit, prev.totalCash)
  | .interpolated prior => some (prior.totalCredit, prior.totalCash)

/-- `RestaurantFinanceApp.load_data` (lines 658-775) as a resolver.
`fileExists` is the `os.path.exists(self.excel_file)` test (line 685):
when the file is missing the code unconditionally opens the first-day
dialog (line 694), i.e. takes the bootstrap-input path, modelled as
`needsBootstrap`.  An empty frame (line 699), an exact match at
position 0 (line 712) and a query before the first date (line 751)
likewise open the dialog and return. -/
def resolve (fileExists : Bool) (df : List DailyRecord) (q : Nat) :
    ResolvedContext :=
  if !fileExists then .needsBootstrap
  else if df.isEmpty then .needsBootstrap
  else if df.any (fun r => r.date == q) then
    let idx := df.findIdx (fun r => r.date == q)
    if idx = 0 then .needsBootstrap
    else .exact (df.getD idx emptyRec) (df.getD (idx - 1) emptyRec)
  else if q < (df.getD 0 emptyRec).date then .needsBootstrap
  else .interpolated (df.getD (scanBack df q) emptyRec)

/-! ### String-level date lookup (claim C2)

`load_data` line 705 and `save_data` line 844 decide date existence with
`df['Date'].astype(str).str.contains(selected_date)`, i.e. substring
matching on the date strings, while the index lookup (lines 709, 860,
881) uses string equality.  Both query and stored dates are produced by
`QDate.toString('yyyy-MM-dd')`, so all are strings of one fixed length. -/

/-- `s.startswith(pat)` on character lists. -/
def leadMatch : List Char → List Char → Bool
  | [], _ => true
  | _ :: _, [] => false
  | a :: as, b :: bs => a == b && leadMatch as bs

/-- `pat in s` (Python substring test; what `str.contains` computes for
a pattern without regex metacharacters, such as a `yyyy-MM-dd` date). -/
def containsSub (pat : List Char) : List Char → Bool
  | [] => pat.isEmpty
  | c :: rest => leadMatch pat (c :: rest) || containsSub pat rest

/-- `df['Date'].astype(str).str.contains(q).any()` (lines 705, 844). -/
def dateExistsContains (dates : List String) (q : String) : Bool :=
  dates.any (fun d => containsSub q.data d.data)

/-- `(df['Date'].astype(str) == q).any()`: exact-equality date lookup
(the comparison used by the index lookups at lines 709, 860, 881). -/
def dateExistsEq (dates : List String) (q : String) : Bool :=
  dates.any (fun d => d == q)

/-! ### UI input handling (claims C9, C1) -/

/-- The text held by an amount input field, by parse status: empty,
numeric with value `v`, or non-numeric. -/
inductive FieldText where
  | empty : FieldText
  | num : Int → FieldText
  | invalid : FieldText
deriving DecidableEq

/-- Python `float(text)`: `some v` on numeric text, `none` for the
`ValueError` raised on empty or non-numeric text. -/
def pyFloat : FieldText → Option Int
  | .num v => some v
  | _ => none

/-- `float(entry.text()) if entry.text() else 0` as used by
`calculate_totals` (lines 787-789): an empty field reads as 0, a
non-numeric field raises. -/
def guardedFloat : FieldText → Option Int
  | .empty => some 0
  | t => pyFloat t

/-- `RestaurantFinanceApp.calculate_totals` (lines 777-820): reads the
three amount fields, sums the expense list and assembles the row
dictionary; any `ValueError` is caught, an error box is shown and the
method returns `None` (line 819-820), modelled as `none`. -/
def calculateTotals (date : Nat) (cashT creditT withdrawT : FieldText)
    (lastDayCredit lastDayCash : Int) (expenses : List (String × Int)) :
    Option DailyRecord :=
  match guardedFloat cashT, guardedFloat creditT, guardedFloat withdrawT with
  | some cash, some credit, some creditWithdraw =>
      let totalExpenses := sumAmounts expenses
      some { date, cash, credit, creditWithdraw,
             totalSellings := cash + credit,
             totalExpenses,
             totalCredit := lastDayCredit + credit - creditWithdraw,
             totalCash := lastDayCash + cash + creditWithdraw - totalExpenses,
             expenses }
  | _, _, _ => none

/-- `RestaurantFinanceApp.add_expense` (lines 935-968): on a numeric
amount the pair is appended to `self.expenses`; a `ValueError` shows an
error box (`true` in the second component) and leaves the list alone. -/
def addExpense (expenses : List (String × Int)) (name : String)
    (amountT : FieldText) : List (String × Int) × Bool :=
  match pyFloat amountT with
  | some a => (expenses ++ [(name, a)], false)
  | none => (expenses, true)

/-- `FirstDayDataDialog.get_data` (lines 68-82): both fields are parsed;
any `ValueError` silently yields the defaults `(0, 0)`. -/
def getData (creditT cashT : FieldText) : Int × Int :=
  match pyFloat creditT, pyFloat cashT with
  | some c, some k => (c, k)
  | _, _ => (0, 0)

/-- The `initial_row` built by `show_first_day_dialog` (lines 595-605):
dated one day before the selected date, zero flow fields, opening
balances from the dialog, and the no-expenses marker. -/
def initialRow (firstDate : Nat) (lastDayCredit lastDayCash : Int) :
    DailyRecord :=
  { date := firstDate, cash := 0, credit := 0, creditWithdraw := 0,
    totalSellings := 0, totalCredit := lastDayCredit,
    totalCash := lastDayCash, totalExpenses := 0, expenses := [] }

/-- Ledger effect of `RestaurantFinanceApp.show_first_day_dialog`
(lines 553-611): read the dialog fields with `get_data` and save the
bootstrap row for the previous day via `save_data` (line 608). -/
def showFirstDayDialog (df : List DailyRecord) (selectedDate : Nat)
    (creditT cashT : FieldText) : List DailyRecord :=
  let opening := getData creditT cashT
  saveData df (initialRow (selectedDate - 1) opening.1 opening.2)

/-! ### Expense list editing (claim C10) -/

/-- `RestaurantFinanceApp.edit_expense` (lines 990-994): scan
`self.expenses` in order, replace the first pair equal to the selected
`(name, amount)` by the newly entered pair and stop. -/
def editExpense (expenses : List (String × Int)) (selName : String)
    (selAmount : Int) (newName : String) (newAmount : Int) :
    List (String × Int) :=
  match expenses with
  | [] => []
  | (n, a) :: rest =>
      if n == selName && a == selAmount then (newName, newAmount) :: rest
      else (n, a) :: editExpense rest selName selAmount newName newAmount

/-- `RestaurantFinanceApp.delete_expense` (lines 1028-1032): scan
`self.expenses` in order, delete the first pair equal to the selected
`(name, amount)` and stop. -/
def deleteExpense (expenses : List (String × Int)) (selName : String)
    (selAmount : Int) : List (String × Int) :=
  match expenses with
  | [] => []
  | (n, a) :: rest =>
      if n == selName && a == selAmount then rest
      else (n, a) :: deleteExpense rest selName selAmount

/-! ### The ledger invariant and the reachable stores (claim C1) -/

/-- Flow fields of a bootstrap row are all zero (spec §3; true of every
`initial_row` the dialog writes). -/
def flowsZero (r : DailyRecord) : Bool :=
  r.cash == 0 && r.credit == 0 && r.creditWithdraw == 0 && r.totalExpenses == 0

/-- Spec invariant (3) for one adjacent pair `a, b` (`b` directly after
`a` in date order):
`cumulative_credit[i] = cumulative_credit[i-1] + credit_income[i] - credit_withdraw[i]` and
`cumulative_cash[i] = cumulative_cash[i-1] + cash_income[i] + credit_withdraw[i] - total_expenses[i]`. -/
def chainLink (a b : DailyRecord) : Prop :=
  b.totalCredit = a.totalCredit + b.credit - b.creditWithdraw ∧
  b.totalCash = a.totalCash + b.cash + b.creditWithdraw - b.totalExpenses

instance (a b : DailyRecord) : Decidable (chainLink a b) := instDecidableAnd

/-- `data.totalCredit` and `data.totalCash` were computed by
`calculate_totals` (lines 796-797) from `prev`'s stored running totals:
`total_credit = last_day_credit + credit - credit_withdraw`,
`total_cash = last_day_cash + cash + credit_withdraw - total_expenses`. -/
def consistentWith (prev data : DailyRecord) : Bool :=
  data.totalCredit == prev.totalCredit + data.credit - data.creditWithdraw &&
  data.totalCash == prev.totalCash + data.cash + data.creditWithdraw - data.totalExpenses

/-- The rows `save_data` can actually be handed by the application.
Every save goes through `load_data` (which sets `last_day_credit` /
`last_day_cash`) followed by `calculate_totals`, or through
`show_first_day_dialog`:

* an existing date at position `idx > 0`: the opening balances came
  from the stored predecessor `df[idx-1]` (lines 719-721) — a date at
  position 0 instead reopens the dialog and is never edited directly;
* a date earlier than every stored date (or an empty store): only the
  dialog's `initial_row` is saved, with all flow fields zero;
* a fresh later date: the opening balances came from the nearest prior
  row found by the backward scan (lines 756-766). -/
def validSave (df : List DailyRecord) (data : DailyRecord) : Bool :=
  if df.any (fun r => r.date == data.date) then
    let idx := df.findIdx (fun r => r.date == data.date)
    decide (0 < idx) && consistentWith (df.getD (idx - 1) emptyRec) data
  else if df.all (fun r => decide (data.date < r.date)) then
    flowsZero data
  else
    consistentWith (df.getD (scanBack df data.date) emptyRec) data

/-- Dates strictly increase along the stored sequence. -/
def dateLt (a b : DailyRecord) : Prop := a.date < b.date

instance (a b : DailyRecord) : Decidable (dateLt a b) :=
  Nat.decLt a.date b.date

/-- Well-formedness of a stored ledger: strictly date-sorted, spec
invariant (3) between every adjacent pair, and the first row (the
bootstrap row) has zero flow fields. -/
def Inv (df : List DailyRecord) : Prop :=
  List.Pairwise dateLt df ∧ List.Chain' chainLink df ∧
    (∀ r, df.head? = some r → flowsZero r = true)

/-- Ledger stores producible by the application: start from the empty
store and repeatedly `save_data` a row of the shape the UI pipeline
produces (`validSave`). -/
inductive Reachable : List DailyRecord → Prop where
  | nil : Reachable []
  | step {df : List DailyRecord} {data : DailyRecord} :
      Reachable df → validSave df data = true → Reachable (saveData df data)

/-! ### Helper lemmas on the list operations -/

theorem shiftRec_zero (r : DailyRecord) : shiftRec r 0 0 = r := by
  simp [shiftRec]

theorem shiftRec_shiftRec (r : DailyRecord) (a b c d : Int) :
    shiftRec (shiftRec r a b) c d = shiftRec r (a + c) (b + d) := by
  simp [shiftRec, add_assoc]

theorem addFromIdx_zero (l : List DailyRecord) (dc dk : Int) :
    addFromIdx l 0 dc dk = l.map (fun r => shiftRec r dc dk) := by
  induction l with
  | nil => rfl
  | cons r rs ih => simp [addFromIdx, ih]

theorem addFromIdx_append (A : List DailyRecord) (l : List DailyRecord)
    (k : Nat) (dc dk : Int) :
    addFromIdx (A ++ l) (A.length + k) dc dk = A ++ addFromIdx l k dc dk := by
  induction A with
  | nil => simp
  | cons a A ih =>
      simp only [List.cons_append, List.length_cons]
      have : A.length + 1 + k = (A.length + k) + 1 := by omega
      rw [this]
      simp [addFromIdx, ih]

theorem addFromIdx_ge (l : List DailyRecord) (i : Nat) (dc dk : Int)
    (h : l.length ≤ i) : addFromIdx l i dc dk = l := by
  induction l generalizing i with
  | nil => rfl
  | cons r rs ih =>
      cases i with
      | zero => simp at h
      | succ j =>
          simp only [List.length_cons, Nat.succ_le_succ_iff] at h
          simp [addFromIdx, ih j h]

theorem addFromIdx_zero_delta (l : List DailyRecord) (i : Nat) :
    addFromIdx l i 0 0 = l := by
  induction l generalizing i with
  | nil => rfl
  | cons r rs ih =>
      cases i with
      | zero => simp [addFromIdx, shiftRec_zero, ih 0]
      | succ j => simp [addFromIdx, ih j]

theorem insertSorted_split (A B : List DailyRecord) (d : DailyRecord)
    (hA : ∀ a ∈ A, a.date < d.date) (hB : ∀ b ∈ B, d.date < b.date) :
    insertSorted (A ++ B) d = A ++ d :: B := by
  induction A with
  | nil =>
      cases B with
      | nil => rfl
      | cons b bs =>
          simp only [List.nil_append, insertSorted]
          rw [if_pos (hB b (by simp))]
  | cons a A ih =>
      have hA' : ∀ x ∈ A, x.date < d.date :=
        fun x hx => hA x (List.mem_cons_of_mem _ hx)
      simp only [List.cons_append, insertSorted]
      rw [if_neg (by exact Nat.lt_asymm (hA a (by simp)))]
      show a :: insertSorted (A ++ B) d = a :: (A ++ d :: B)
      rw [ih hA']

theorem findIdx_split_at (A B : List DailyRecord) (x : DailyRecord)
    (dd : Nat) (hx : x.date = dd) (hA : ∀ a ∈ A, a.date ≠ dd) :
    (A ++ x :: B).findIdx (fun r => r.date == dd) = A.length := by
  induction A with
  | nil => simp [List.findIdx_cons, hx]
  | cons a A ih =>
      simp only [List.cons_append, List.findIdx_cons, List.length_cons]
      have hne : (a.date == dd) = false := by
        simp [hA a (by simp)]
      rw [hne]
      simp [ih (fun y hy => hA y (by simp [hy]))]

theorem any_date_eq_false (df : List DailyRecord) (d : Nat)
    (h : ∀ a ∈ df, a.date ≠ d) :
    df.any (fun r => r.date == d) = false := by
  simp only [List.any_eq_false]
  intro a ha
  simp [h a ha]

theorem set_append_length (A B : List DailyRecord) (x d : DailyRecord) :
    (A ++ x :: B).set A.length d = A ++ d :: B := by
  induction A with
  | nil => rfl
  | cons a A ih => simp [List.set, ih]

theorem getD_append_length (A B : List DailyRecord) (x : DailyRecord) :
    (A ++ x :: B).getD A.length emptyRec = x := by
  induction A with
  | nil => rfl
  | cons a A ih => simpa using ih

theorem getD_map_shift (l : List DailyRecord) (i : Nat) (dc dk : Int)
    (h : i < l.length) :
    (l.map (fun r => shiftRec r dc dk)).getD i emptyRec =
      shiftRec (l.getD i emptyRec) dc dk := by
  induction l generalizing i with
  | nil => simp at h
  | cons r rs ih =>
      cases i with
      | zero => rfl
      | succ j =>
          simp only [List.length_cons, Nat.succ_lt_succ_iff] at h
          simpa using ih j h

theorem set_getD_self (l : List DailyRecord) (i : Nat) (x : DailyRecord)
    (h : l.getD i emptyRec = x) (hi : i < l.length) : l.set i x = l := by
  induction l generalizing i with
  | nil => simp at hi
  | cons r rs ih =>
      cases i with
      | zero => simp_all
      | succ j =>
          simp only [List.length_cons, Nat.succ_lt_succ_iff] at hi
          simp only [List.getD_cons_succ] at h
          simp [List.set, ih j h hi]

/-! ### Structural behaviour of `save_data` -/

/-- Fresh insert behind at least one earlier record (save_data lines
852-877 with the found index positive): the new row lands between the
earlier and later records and exactly the later records receive the new
row's per-field flow deltas. -/
theorem saveData_fresh_insert (A B : List DailyRecord) (data : DailyRecord)
    (hA0 : A ≠ []) (hA : ∀ a ∈ A, a.date < data.date)
    (hB : ∀ b ∈ B, data.date < b.date) :
    saveData (A ++ B) data =
      A ++ data :: B.map (fun r =>
        shiftRec r (data.credit - data.creditWithdraw)
          (data.cash + data.creditWithdraw - data.totalExpenses)) := by
  have hne : ∀ a ∈ A ++ B, a.date ≠ data.date := by
    intro a ha
    rcases List.mem_append.mp ha with h | h
    · exact Nat.ne_of_lt (hA a h)
    · exact (Nat.ne_of_lt (hB a h)).symm
  have hany := any_date_eq_false (A ++ B) data.date hne
  have hempty : (A ++ B).isEmpty = false := by
    cases A with
    | nil => exact absurd rfl hA0
    | cons a A => rfl
  have hins := insertSorted_split A B data hA hB
  have hfind := findIdx_split_at A B data data.date rfl
    (fun a ha => Nat.ne_of_lt (hA a ha))
  have hlen0 : A.length ≠ 0 := fun h => hA0 (List.length_eq_zero.mp h)
  unfold saveData
  rw [hany, hempty, hins]
  simp only [Bool.not_false, Bool.false_eq_true, if_false, if_true, hfind,
    if_neg hlen0]
  rw [addFromIdx_append A (data :: B) 1]
  show A ++ data :: addFromIdx B 0 _ _ = _
  rw [addFromIdx_zero]

/-- Insert of a row predating every stored record (save_data lines
852-877 with found index 0): every previously stored record, now from
position 1 on, is shifted by the back-computed delta against the
previous first row plus the new row's per-field flow deltas. -/
theorem saveData_front_insert (df : List DailyRecord) (data : DailyRecord)
    (h0 : df ≠ []) (hb : ∀ b ∈ df, data.date < b.date) :
    saveData df data =
      data :: df.map (fun r =>
        shiftRec r
          (data.totalCredit - (df.getD 0 emptyRec).totalCredit
            + (data.credit - data.creditWithdraw))
          (data.totalCash - (df.getD 0 emptyRec).totalCash
            + (data.cash + data.creditWithdraw - data.totalExpenses))) := by
  have hne : ∀ a ∈ df, a.date ≠ data.date :=
    fun a ha => (Nat.ne_of_lt (hb a ha)).symm
  have hany := any_date_eq_false df data.date hne
  have hempty : df.isEmpty = false := by
    cases df with
    | nil => exact absurd rfl h0
    | cons a l => rfl
  have hins : insertSorted df data = data :: df := by
    have := insertSorted_split [] df data (by simp) hb
    simpa using this
  have hfind : (data :: df).findIdx (fun r => r.date == data.date) = 0 := by
    simp [List.findIdx_cons]
  unfold saveData
  rw [hany, hempty, hins]
  simp only [Bool.not_false, Bool.false_eq_true, if_false, if_true, hfind,
    if_pos rfl]
  cases df with
  | nil => exact absurd rfl h0
  | cons r1 rest =>
      show addFromIdx (data :: addFromIdx (r1 :: rest) 0 _ _) 1 _ _ = _
      rw [addFromIdx_zero]
      show data :: addFromIdx ((r1 :: rest).map _) 0 _ _ = _
      rw [addFromIdx_zero, List.map_map]
      simp only [List.cons.injEq, true_and]
      apply List.map_congr_left
      intro r _
      simp [Function.comp, shiftRec_shiftRec]

/-- Edit of an existing date at found index `A.length` (save_data lines
879-896): the difference of the new row's running totals against the
stored ones is added to the edited row and all later rows, then the
edited row is overwritten by the new row; earlier rows are untouched. -/
theorem saveData_edit (A B : List DailyRecord) (x data : DailyRecord)
    (hx : x.date = data.date) (hA : ∀ a ∈ A, a.date ≠ data.date) :
    saveData (A ++ x :: B) data =
      A ++ data :: B.map (fun r =>
        shiftRec r (data.totalCredit - x.totalCredit)
          (data.totalCash - x.totalCash)) := by
  have hany : (A ++ x :: B).any (fun r => r.date == data.date) = true := by
    simp only [List.any_eq_true]
    exact ⟨x, by simp, by simp [hx]⟩
  have hempty : (A ++ x :: B).isEmpty = false := by
    cases A with
    | nil => rfl
    | cons a l => rfl
  have hfind := findIdx_split_at A B x data.date hx hA
  have hget := getD_append_length A B x
  unfold saveData
  rw [hany, hempty]
  simp only [Bool.not_true, Bool.false_eq_true, if_false, hfind, hget]
  have heq : addFromIdx (A ++ x :: B) A.length
      (data.totalCredit - x.totalCredit) (data.totalCash - x.totalCash)
      = A ++ (shiftRec x (data.totalCredit - x.totalCredit)
          (data.totalCash - x.totalCash) ::
        B.map (fun r => shiftRec r (data.totalCredit - x.totalCredit)
          (data.totalCash - x.totalCash))) := by
    have h0 : A.length = A.length + 0 := rfl
    rw [h0, addFromIdx_append A (x :: B) 0, addFromIdx_zero]
    rfl
  rw [heq, set_append_length]

/-! ### Claims C3-C6: propagation behaviour of `save_data` -/

/-- C3: inserting a record at position 0 — a bootstrap row, which per
spec §3 (and per every row `show_first_day_dialog` actually writes) has
all flow fields zero — makes the propagator compute the credit and cash
differences as the new row's stored running totals minus those of the
row previously at position 0 (demoted to position 1), and add exactly
that delta to every record from the new position 1 onward; the normal
per-field flow diff contributes nothing. -/
theorem C3_bootstrap_back_diff (df : List DailyRecord) (data : DailyRecord)
    (h0 : df ≠ []) (hb : ∀ b ∈ df, data.date < b.date)
    (hz : flowsZero data = true) :
    saveData df data =
      data :: df.map (fun r =>
        shiftRec r (data.totalCredit - (df.getD 0 emptyRec).totalCredit)
          (data.totalCash - (df.getD 0 emptyRec).totalCash)) := by
  have h := saveData_front_insert df data h0 hb
  simp only [flowsZero, Bool.and_eq_true, beq_iff_eq] at hz
  obtain ⟨⟨⟨hc, hcr⟩, hw⟩, he⟩ := hz
  rw [h]
  simp [hc, hcr, hw, he]

/-- Witness for C3 at a one-record store and a zero-flow bootstrap row. -/
theorem C3_witness :
    saveData [⟨2, 0, 0, 0, 0, 100, 100, 0, []⟩] ⟨1, 0, 0, 0, 0, 50, 50, 0, []⟩
      = ⟨1, 0, 0, 0, 0, 50, 50, 0, []⟩ ::
        [(⟨2, 0, 0, 0, 0, 100, 100, 0, []⟩ : DailyRecord)].map (fun r =>
          shiftRec r
            ((50 : Int) -
              (([⟨2, 0, 0, 0, 0, 100, 100, 0, []⟩] : List DailyRecord).getD 0
                emptyRec).totalCredit)
            ((50 : Int) -
              (([⟨2, 0, 0, 0, 0, 100, 100, 0, []⟩] : List DailyRecord).getD 0
                emptyRec).totalCash)) :=
  C3_bootstrap_back_diff _ _ (by decide) (by decide) (by decide)

/-- C4 counterexample: backfilling a bootstrap row with opening balances
50/50 in front of a store whose only record carries running totals
100/100 rewrites that record's totals to 50/50, not to the old totals
plus the inserted record's flow deltas (which are zero), so later
records are not "shifted by exactly the inserted record's own flow
deltas". -/
theorem C4_counterexample :
    (saveData [⟨2, 0, 0, 0, 0, 100, 100, 0, []⟩]
        ⟨1, 0, 0, 0, 0, 50, 50, 0, []⟩).map
      (fun r => (r.totalCredit, r.totalCash))
      = [(50, 50), (50, 50)] ∧
    ¬((50 : Int) = 100 + ((0 : Int) - 0) ∧
      (50 : Int) = 100 + ((0 : Int) + 0 - 0)) := by
  exact ⟨by decide, by decide⟩

/-- C4 as amended: inserting a record dated before every stored record
shifts every later record's running totals by the back-computed
difference of the inserted row's totals against the previously-first
row's totals plus the inserted row's per-field flow deltas (not by the
flow deltas alone), and the pairwise differences of running totals
between any two later records are unchanged. -/
theorem C4_backfill_shift (df : List DailyRecord) (data : DailyRecord)
    (h0 : df ≠ []) (hb : ∀ b ∈ df, data.date < b.date) :
    (∀ i, i < df.length →
      ((saveData df data).getD (i + 1) emptyRec).totalCredit
        = (df.getD i emptyRec).totalCredit
          + (data.totalCredit - (df.getD 0 emptyRec).totalCredit
            + (data.credit - data.creditWithdraw)) ∧
      ((saveData df data).getD (i + 1) emptyRec).totalCash
        = (df.getD i emptyRec).totalCash
          + (data.totalCash - (df.getD 0 emptyRec).totalCash
            + (data.cash + data.creditWithdraw - data.totalExpenses))) ∧
    (∀ i j, i < df.length → j < df.length →
      ((saveData df data).getD (i + 1) emptyRec).totalCredit
          - ((saveData df data).getD (j + 1) emptyRec).totalCredit
        = (df.getD i emptyRec).totalCredit - (df.getD j emptyRec).totalCredit ∧
      ((saveData df data).getD (i + 1) emptyRec).totalCash
          - ((saveData df data).getD (j + 1) emptyRec).totalCash
        = (df.getD i emptyRec).totalCash - (df.getD j emptyRec).totalCash) := by
  have h := saveData_front_insert df data h0 hb
  have hget : ∀ i, i < df.length →
      (saveData df data).getD (i + 1) emptyRec =
        shiftRec (df.getD i emptyRec)
          (data.totalCredit - (df.getD 0 emptyRec).totalCredit
            + (data.credit - data.creditWithdraw))
          (data.totalCash - (df.getD 0 emptyRec).totalCash
            + (data.cash + data.creditWithdraw - data.totalExpenses)) := by
    intro i hi
    rw [h]
    show (df.map _).getD i emptyRec = _
    exact getD_map_shift df i _ _ hi
  constructor
  · intro i hi
    rw [hget i hi]
    exact ⟨rfl, rfl⟩
  · intro i j hi hj
    rw [hget i hi, hget j hj]
    constructor
    · show (df.getD i emptyRec).totalCredit + _ - ((df.getD j emptyRec).totalCredit + _) = _
      ring
    · show (df.getD i emptyRec).totalCash + _ - ((df.getD j emptyRec).totalCash + _) = _
      ring

/-- Witness for C4's amended statement on a two-record store. -/
theorem C4_backfill_shift_witness :
    ((saveData [⟨3, 0, 0, 0, 0, 100, 100, 0, []⟩]
        ⟨1, 2, 3, 1, 5, 50, 50, 4, []⟩).getD 1 emptyRec).totalCredit
      = (([⟨3, 0, 0, 0, 0, 100, 100, 0, []⟩] : List DailyRecord).getD 0
          emptyRec).totalCredit
        + ((50 : Int) -
            (([⟨3, 0, 0, 0, 0, 100, 100, 0, []⟩] : List DailyRecord).getD 0
              emptyRec).totalCredit
          + ((3 : Int) - 1)) :=
  ((C4_backfill_shift _ _ (by decide) (by decide)).1 0 (by decide)).1

/-- C5: saving a record for a fresh date that is not earlier than every
stored date leaves every earlier record completely unchanged, places the
new row between them, and adds `credit - credit_withdraw` and
`cash + credit_withdraw - total_expenses` to the running totals of every
record strictly after it in date order. -/
theorem C5_fresh_insert_propagation (A B : List DailyRecord)
    (data : DailyRecord) (hA0 : A ≠ [])
    (hA : ∀ a ∈ A, a.date < data.date)
    (hB : ∀ b ∈ B, data.date < b.date) :
    saveData (A ++ B) data =
      A ++ data :: B.map (fun r =>
        shiftRec r (data.credit - data.creditWithdraw)
          (data.cash + data.creditWithdraw - data.totalExpenses)) :=
  saveData_fresh_insert A B data hA0 hA hB

/-- Witness for C5 with one earlier and one later record. -/
theorem C5_witness :
    saveData ([⟨1, 0, 0, 0, 0, 10, 20, 0, []⟩] ++
        [⟨9, 1, 2, 3, 3, 9, 19, 0, []⟩]) ⟨5, 10, 20, 5, 30, 25, 32, 3, []⟩
      = [⟨1, 0, 0, 0, 0, 10, 20, 0, []⟩] ++
        ⟨5, 10, 20, 5, 30, 25, 32, 3, []⟩ ::
          [(⟨9, 1, 2, 3, 3, 9, 19, 0, []⟩ : DailyRecord)].map (fun r =>
            shiftRec r ((20 : Int) - 5) ((10 : Int) + 5 - 3)) :=
  C5_fresh_insert_propagation _ _ _ (by decide) (by decide) (by decide)

/-- C6: re-saving the record already stored for its date computes zero
credit and cash differences and leaves the stored sequence exactly as it
was; a propagation starting past the last record, or with zero diffs,
mutates nothing. -/
theorem C6_idempotent_resave (df : List DailyRecord) (data : DailyRecord)
    (idx : Nat) (hfind : df.findIdx (fun r => r.date == data.date) = idx)
    (hlt : idx < df.length) (hget : df.getD idx emptyRec = data) :
    (data.totalCredit - (df.getD idx emptyRec).totalCredit = 0 ∧
      data.totalCash - (df.getD idx emptyRec).totalCash = 0) ∧
    saveData df data = df ∧
    (∀ i dc dk, df.length ≤ i → addFromIdx df i dc dk = df) ∧
    (∀ i, addFromIdx df i 0 0 = df) := by
  refine ⟨⟨by rw [hget, sub_self], by rw [hget, sub_self]⟩, ?_,
    fun i dc dk h => addFromIdx_ge df i dc dk h,
    fun i => addFromIdx_zero_delta df i⟩
  have hmem : df.getD idx emptyRec ∈ df := by
    rw [List.getD_eq_getElem df emptyRec hlt]
    exact List.getElem_mem hlt
  have hany : df.any (fun r => r.date == data.date) = true := by
    simp only [List.any_eq_true]
    exact ⟨data, by rw [← hget]; exact hmem, by simp⟩
  have hempty : df.isEmpty = false := by
    cases df with
    | nil => simp at hlt
    | cons r l => rfl
  unfold saveData
  rw [hany, hempty]
  simp only [Bool.not_true, Bool.false_eq_true, if_false, hfind, hget,
    sub_self, addFromIdx_zero_delta]
  exact set_getD_self df idx data hget hlt

/-- Witness for C6 re-saving the second record of a two-record store. -/
theorem C6_witness :
    saveData [⟨1, 0, 0, 0, 0, 10, 20, 0, []⟩, ⟨5, 10, 20, 5, 30, 25, 32, 3, []⟩]
        ⟨5, 10, 20, 5, 30, 25, 32, 3, []⟩
      = [⟨1, 0, 0, 0, 0, 10, 20, 0, []⟩, ⟨5, 10, 20, 5, 30, 25, 32, 3, []⟩] ∧
    addFromIdx [⟨1, 0, 0, 0, 0, 10, 20, 0, []⟩,
        ⟨5, 10, 20, 5, 30, 25, 32, 3, []⟩] 2 7 9
      = [⟨1, 0, 0, 0, 0, 10, 20, 0, []⟩, ⟨5, 10, 20, 5, 30, 25, 32, 3, []⟩] ∧
    addFromIdx [⟨1, 0, 0, 0, 0, 10, 20, 0, []⟩,
        ⟨5, 10, 20, 5, 30, 25, 32, 3, []⟩] 0 0 0
      = [⟨1, 0, 0, 0, 0, 10, 20, 0, []⟩, ⟨5, 10, 20, 5, 30, 25, 32, 3, []⟩] := by
  have h := C6_idempotent_resave
    [⟨1, 0, 0, 0, 0, 10, 20, 0, []⟩, ⟨5, 10, 20, 5, 30, 25, 32, 3, []⟩]
    ⟨5, 10, 20, 5, 30, 25, 32, 3, []⟩ 1 (by decide) (by decide) (by decide)
  exact ⟨h.2.1, h.2.2.1 2 7 9 (by decide), h.2.2.2 0⟩

/-! ### Claims C7-C8: the day resolver -/

theorem getD_last_mem (l : List DailyRecord) (h : l ≠ []) :
    l.getD (l.length - 1) emptyRec ∈ l := by
  have hlt : l.length - 1 < l.length := by
    cases l with
    | nil => exact absurd rfl h
    | cons a t => simp
  rw [List.getD_eq_getElem l emptyRec hlt]
  exact List.getElem_mem hlt

theorem date_le_getD_last (l : List DailyRecord)
    (hs : List.Pairwise dateLt l) (a : DailyRecord) (ha : a ∈ l) :
    a.date ≤ (l.getD (l.length - 1) emptyRec).date := by
  induction l with
  | nil => simp at ha
  | cons x rest ih =>
      cases rest with
      | nil =>
          simp only [List.mem_singleton] at ha
          simp [ha]
      | cons y t =>
          have hx : ∀ b ∈ y :: t, dateLt x b := (List.pairwise_cons.mp hs).1
          have hs' : List.Pairwise dateLt (y :: t) :=
            (List.pairwise_cons.mp hs).2
          have hshape : (x :: y :: t).getD ((x :: y :: t).length - 1) emptyRec
              = (y :: t).getD ((y :: t).length - 1) emptyRec := by
            simp [List.getD_cons_succ]
          rw [hshape]
          rcases List.mem_cons.mp ha with h | h
          · subst h
            exact Nat.le_of_lt (hx _ (getD_last_mem (y :: t) (by simp)))
          · exact ih hs' h

theorem scanBackAux_split (A B : List DailyRecord) (q : Nat) (hA0 : A ≠ [])
    (hA : ∀ a ∈ A, a.date < q) (hB : ∀ b ∈ B, q < b.date) :
    ∀ i, A.length - 1 ≤ i → i < (A ++ B).length →
      scanBackAux (A ++ B) q i = A.length - 1 := by
  intro i
  induction i with
  | zero =>
      intro hle _
      have : A.length = 1 := by
        cases A with
        | nil => exact absurd rfl hA0
        | cons a t =>
            simp only [List.length_cons] at hle ⊢
            omega
      simp [scanBackAux, this]
  | succ i ih =>
      intro hle hlt
      by_cases hcase : A.length - 1 = i + 1
      · have hia : i + 1 < A.length := by omega
        have hgd : (A ++ B).getD (i + 1) emptyRec = A.getD (i + 1) emptyRec :=
          List.getD_append A B emptyRec (i + 1) hia
        have hmem : A.getD (i + 1) emptyRec ∈ A := by
          rw [List.getD_eq_getElem A emptyRec hia]
          exact List.getElem_mem hia
        have hdlt : ((A ++ B).getD (i + 1) emptyRec).date < q := by
          rw [hgd]; exact hA _ hmem
        show (if ((A ++ B).getD (i + 1) emptyRec).date < q then i + 1
          else scanBackAux (A ++ B) q i) = A.length - 1
        rw [if_pos hdlt]
        omega
      · have hge : A.length ≤ i + 1 := by omega
        have hgd : (A ++ B).getD (i + 1) emptyRec
            = B.getD (i + 1 - A.length) emptyRec :=
          List.getD_append_right A B emptyRec (i + 1) hge
        have hib : i + 1 - A.length < B.length := by
          simp only [List.length_append] at hlt
          omega
        have hmem : B.getD (i + 1 - A.length) emptyRec ∈ B := by
          rw [List.getD_eq_getElem B emptyRec hib]
          exact List.getElem_mem hib
        have hnlt : ¬((A ++ B).getD (i + 1) emptyRec).date < q := by
          rw [hgd]
          exact Nat.not_lt_of_lt (hB _ hmem)
        show (if ((A ++ B).getD (i + 1) emptyRec).date < q then i + 1
          else scanBackAux (A ++ B) q i) = A.length - 1
        rw [if_neg hnlt]
        exact ih (by omega) (by omega)

theorem scanBack_split (A B : List DailyRecord) (q : Nat) (hA0 : A ≠ [])
    (hA : ∀ a ∈ A, a.date < q) (hB : ∀ b ∈ B, q < b.date) :
    scanBack (A ++ B) q = A.length - 1 := by
  have hlen : 0 < (A ++ B).length := by
    cases A with
    | nil => exact absurd rfl hA0
    | cons a t => simp
  exact scanBackAux_split A B q hA0 hA hB ((A ++ B).length - 1)
    (by simp only [List.length_append]; omega) (by omega)

/-- C7: when the query date has no exact match, is not before the
earliest stored date, and the store splits into the records `A` dated
before the query and `B` dated after it, the resolver returns
`Interpolated` of the record found by the backward scan, which is the
record with the latest date strictly earlier than the query, and the
opening balances handed to the UI are that record's stored running
totals. -/
theorem C7_resolver_nearest_prior (A B : List DailyRecord) (q : Nat)
    (hsorted : List.Pairwise dateLt (A ++ B)) (hA0 : A ≠ [])
    (hA : ∀ a ∈ A, a.date < q) (hB : ∀ b ∈ B, q < b.date) :
    resolve true (A ++ B) q =
      .interpolated ((A ++ B).getD (A.length - 1) emptyRec) ∧
    scanBack (A ++ B) q = A.length - 1 ∧
    ((A ++ B).getD (A.length - 1) emptyRec).date < q ∧
    (∀ r ∈ A ++ B, r.date < q →
      r.date ≤ ((A ++ B).getD (A.length - 1) emptyRec).date) ∧
    resolvedLastDay (resolve true (A ++ B) q) =
      some (((A ++ B).getD (A.length - 1) emptyRec).totalCredit,
        ((A ++ B).getD (A.length - 1) emptyRec).totalCash) := by
  have hne : ∀ a ∈ A ++ B, a.date ≠ q := by
    intro a ha
    rcases List.mem_append.mp ha with h | h
    · exact Nat.ne_of_lt (hA a h)
    · exact (Nat.ne_of_lt (hB a h)).symm
  have hany := any_date_eq_false (A ++ B) q hne
  have hempty : (A ++ B).isEmpty = false := by
    cases A with
    | nil => exact absurd rfl hA0
    | cons a t => rfl
  have hgd0 : (A ++ B).getD 0 emptyRec = A.getD 0 emptyRec := by
    apply List.getD_append
    cases A with
    | nil => exact absurd rfl hA0
    | cons a t => simp
  have hmem0 : A.getD 0 emptyRec ∈ A := by
    have h0 : 0 < A.length := by
      cases A with
      | nil => exact absurd rfl hA0
      | cons a t => simp
    rw [List.getD_eq_getElem A emptyRec h0]
    exact List.getElem_mem h0
  have hnotlt : ¬q < ((A ++ B).getD 0 emptyRec).date := by
    rw [hgd0]
    exact Nat.not_lt_of_lt (hA _ hmem0)
  have hscan := scanBack_split A B q hA0 hA hB
  have hres : resolve true (A ++ B) q =
      .interpolated ((A ++ B).getD (A.length - 1) emptyRec) := by
    unfold resolve
    rw [hany, hempty]
    simp only [Bool.not_true, Bool.false_eq_true, if_false, if_neg hnotlt,
      hscan]
  have hAlt : A.length - 1 < A.length := by
    cases A with
    | nil => exact absurd rfl hA0
    | cons a t => simp
  have hgdlast : (A ++ B).getD (A.length - 1) emptyRec
      = A.getD (A.length - 1) emptyRec :=
    List.getD_append A B emptyRec (A.length - 1) hAlt
  have hmemlast : A.getD (A.length - 1) emptyRec ∈ A := by
    rw [List.getD_eq_getElem A emptyRec hAlt]
    exact List.getElem_mem hAlt
  refine ⟨hres, hscan, ?_, ?_, ?_⟩
  · rw [hgdlast]
    exact hA _ hmemlast
  · intro r hr hrq
    have hrA : r ∈ A := by
      rcases List.mem_append.mp hr with h | h
      · exact h
      · exact absurd hrq (Nat.not_lt_of_lt (hB r h))
    have hsA : List.Pairwise dateLt A := (List.pairwise_append.mp hsorted).1
    rw [hgdlast]
    exact date_le_getD_last A hsA r hrA
  · rw [hres]
    rfl

/-- Witness for C7 on stored dates `{1, 2, 4}` and query date 3 (the
spec's `{D0, D1, D3}` / query `D2` example). -/
theorem C7_witness :
    resolve true (([⟨1, 0, 0, 0, 0, 10, 20, 0, []⟩,
        ⟨2, 1, 2, 1, 3, 11, 21, 0, []⟩] : List DailyRecord) ++
        ([⟨4, 0, 0, 0, 0, 11, 21, 0, []⟩] : List DailyRecord)) 3
      = .interpolated
        ((([⟨1, 0, 0, 0, 0, 10, 20, 0, []⟩,
            ⟨2, 1, 2, 1, 3, 11, 21, 0, []⟩] : List DailyRecord) ++
          ([⟨4, 0, 0, 0, 0, 11, 21, 0, []⟩] : List DailyRecord)).getD (2 - 1)
          emptyRec) :=
  (C7_resolver_nearest_prior
    ([⟨1, 0, 0, 0, 0, 10, 20, 0, []⟩,
      ⟨2, 1, 2, 1, 3, 11, 21, 0, []⟩] : List DailyRecord)
    ([⟨4, 0, 0, 0, 0, 11, 21, 0, []⟩] : List DailyRecord) 3
    (by decide) (by decide) (by decide) (by decide)).1

/-- C8: the resolver takes the bootstrap-dialog path exactly when the
store file is missing, the loaded store is empty, the query date matches
the record at position 0, or the query date is strictly earlier than
every stored date; in particular a query earlier than the earliest
stored date is never answered with `Interpolated`. -/
theorem C8_needs_bootstrap_iff (fe : Bool) (df : List DailyRecord) (q : Nat)
    (hsorted : List.Pairwise dateLt df) :
    (resolve fe df q = .needsBootstrap ↔
      fe = false ∨ df = [] ∨ (∃ r, df.head? = some r ∧ r.date = q) ∨
        (df ≠ [] ∧ ∀ r ∈ df, q < r.date)) ∧
    (∀ prior, (∀ r ∈ df, q < r.date) →
      resolve fe df q ≠ .interpolated prior) := by
  have hmain : resolve fe df q = .needsBootstrap ↔
      fe = false ∨ df = [] ∨ (∃ r, df.head? = some r ∧ r.date = q) ∨
        (df ≠ [] ∧ ∀ r ∈ df, q < r.date) := by
    cases fe with
    | false => simp [resolve]
    | true =>
        cases df with
        | nil => simp [resolve]
        | cons d tl =>
            have hpair := List.pairwise_cons.mp hsorted
            by_cases hmatch : ((d :: tl).any fun r => r.date == q) = true
            · by_cases hd : d.date = q
              · have hidx : (d :: tl).findIdx (fun r => r.date == q) = 0 := by
                  simp [List.findIdx_cons, hd]
                have hlhs : resolve true (d :: tl) q = .needsBootstrap := by
                  simp only [resolve, Bool.not_true, Bool.false_eq_true,
                    if_false, List.isEmpty_cons, hmatch, if_true, hidx,
                    if_pos rfl]
                exact iff_of_true hlhs
                  (Or.inr (Or.inr (Or.inl ⟨d, rfl, hd⟩)))
              · have hbeq : (d.date == q) = false := by simp [hd]
                have hidx : (d :: tl).findIdx (fun r => r.date == q)
                    = tl.findIdx (fun r => r.date == q) + 1 := by
                  simp [List.findIdx_cons, hbeq]
                have hnb : ¬(∀ r ∈ d :: tl, q < r.date) := by
                  intro hall
                  simp only [List.any_eq_true, beq_iff_eq] at hmatch
                  obtain ⟨r, hr, hrq⟩ := hmatch
                  exact absurd hrq (Nat.ne_of_gt (hall r hr))
                have hlhs : resolve true (d :: tl) q ≠ .needsBootstrap := by
                  simp only [resolve, Bool.not_true, Bool.false_eq_true,
                    if_false, List.isEmpty_cons, hmatch, if_true, hidx,
                    if_neg (Nat.succ_ne_zero _)]
                  exact fun h => ResolvedContext.noConfusion h
                refine iff_of_false hlhs ?_
                rintro (h | h | ⟨r, hr, hrq⟩ | ⟨-, hall⟩)
                · simp at h
                · simp at h
                · simp only [List.head?_cons, Option.some.injEq] at hr
                  subst hr
                  exact hd hrq
                · exact hnb hall
            · have hnoex : ¬∃ r, (d :: tl).head? = some r ∧ r.date = q := by
                rintro ⟨r, hr, hrq⟩
                simp only [List.head?_cons, Option.some.injEq] at hr
                subst hr
                simp only [List.any_eq_true, beq_iff_eq, not_exists,
                  not_and] at hmatch
                exact hmatch d (by simp) hrq
              by_cases hlt : q < ((d :: tl).getD 0 emptyRec).date
              · have hall : ∀ r ∈ d :: tl, q < r.date := by
                  intro r hr
                  rcases List.mem_cons.mp hr with h | h
                  · subst h
                    exact hlt
                  · exact Nat.lt_trans hlt (hpair.1 r h)
                have hlhs : resolve true (d :: tl) q = .needsBootstrap := by
                  simp only [resolve, Bool.not_true, Bool.false_eq_true,
                    if_false, List.isEmpty_cons, hmatch, if_pos hlt]
                exact iff_of_true hlhs
                  (Or.inr (Or.inr (Or.inr ⟨by simp, hall⟩)))
              · have hnall : ¬(∀ r ∈ d :: tl, q < r.date) := by
                  intro hall
                  exact hlt (hall d (by simp))
                have hlhs : resolve true (d :: tl) q ≠ .needsBootstrap := by
                  simp only [resolve, Bool.not_true, Bool.false_eq_true,
                    if_false, List.isEmpty_cons, hmatch, if_neg hlt]
                  exact fun h => ResolvedContext.noConfusion h
                refine iff_of_false hlhs ?_
                rintro (h | h | hex | ⟨-, hall⟩)
                · simp at h
                · simp at h
                · exact hnoex hex
                · exact hnall hall
  refine ⟨hmain, ?_⟩
  intro prior hall hres
  cases df with
  | nil =>
      have : resolve fe [] q = .needsBootstrap := by
        cases fe <;> simp [resolve]
      rw [this] at hres
      exact ResolvedContext.noConfusion hres
  | cons d tl =>
      have : resolve fe (d :: tl) q = .needsBootstrap :=
        hmain.mpr (Or.inr (Or.inr (Or.inr ⟨by simp, hall⟩)))
      rw [this] at hres
      exact ResolvedContext.noConfusion hres

/-- Witness for C8: a query before the earliest stored date yields the
bootstrap path. -/
theorem C8_witness :
    resolve true [⟨5, 0, 0, 0, 0, 10, 20, 0, []⟩] 3 = .needsBootstrap :=
  (C8_needs_bootstrap_iff true [⟨5, 0, 0, 0, 0, 10, 20, 0, []⟩] 3
    (by decide)).1.mpr (Or.inr (Or.inr (Or.inr ⟨by decide, by decide⟩)))

/-! ### Claim C2: the date lookup versus exact equality -/

theorem leadMatch_length_le (p s : List Char) (h : leadMatch p s = true) :
    p.length ≤ s.length := by
  induction p generalizing s with
  | nil => simp
  | cons a as ih =>
      cases s with
      | nil => simp [leadMatch] at h
      | cons b bs =>
          simp only [leadMatch, Bool.and_eq_true] at h
          simpa using ih bs h.2

theorem leadMatch_eq_of_length (p s : List Char) (h : leadMatch p s = true)
    (hl : p.length = s.length) : p = s := by
  induction p generalizing s with
  | nil =>
      cases s with
      | nil => rfl
      | cons b bs => simp at hl
  | cons a as ih =>
      cases s with
      | nil => simp [leadMatch] at h
      | cons b bs =>
          simp only [leadMatch, Bool.and_eq_true, beq_iff_eq] at h
          simp only [List.length_cons, Nat.succ.injEq] at hl
          simp [h.1, ih bs h.2 hl]

theorem leadMatch_refl (p : List Char) : leadMatch p p = true := by
  induction p with
  | nil => rfl
  | cons a as ih => simp [leadMatch, ih]

theorem containsSub_length_le (p s : List Char) (h : containsSub p s = true) :
    p.length ≤ s.length := by
  induction s with
  | nil =>
      simp only [containsSub, List.isEmpty_iff] at h
      simp [h]
  | cons c rest ih =>
      simp only [containsSub, Bool.or_eq_true] at h
      rcases h with h | h
      · exact leadMatch_length_le _ _ h
      · exact Nat.le_trans (ih h) (by simp)

theorem containsSub_eq_of_length (p s : List Char)
    (h : containsSub p s = true) (hl : p.length = s.length) : p = s := by
  cases s with
  | nil =>
      simp only [containsSub, List.isEmpty_iff] at h
      exact h
  | cons c rest =>
      simp only [containsSub, Bool.or_eq_true] at h
      rcases h with h | h
      · exact leadMatch_eq_of_length _ _ h hl
      · have := containsSub_length_le _ _ h
        simp only [List.length_cons] at hl
        omega

theorem containsSub_refl (p : List Char) : containsSub p p = true := by
  cases p with
  | nil => rfl
  | cons c rest => simp [containsSub, leadMatch_refl]

/-- C2: for every query date and every stored record set drawn from the
application's fixed-format date strings (all dates are `yyyy-MM-dd`
strings of the query's length), the `str.contains` existence test of
`load_data` (line 705) and `save_data` (line 844) agrees with exact
date-string equality: a date is found iff an equal date is stored, so
the substring matching never decides the outcome. -/
theorem C2_date_lookup_is_exact_equality (dates : List String) (q : String)
    (h : ∀ d ∈ dates, d.length = q.length) :
    dateExistsContains dates q = dateExistsEq dates q := by
  unfold dateExistsContains dateExistsEq
  induction dates with
  | nil => rfl
  | cons d ds ih =>
      simp only [List.any_cons]
      have hd : containsSub q.data d.data = (d == q) := by
        have hlen : q.data.length = d.data.length :=
          (h d (by simp)).symm
        by_cases hc : containsSub q.data d.data = true
        · have : q.data = d.data := containsSub_eq_of_length _ _ hc hlen
          have : d = q := by
            cases q; cases d
            simp_all
          simp [this, containsSub_refl]
        · have hne : d ≠ q := by
            intro he
            subst he
            exact hc (containsSub_refl _)
          simp [Bool.not_eq_true] at hc
          simp [hc, hne]
      rw [hd, ih (fun x hx => h x (by simp [hx]))]

/-- Witness for C2 at a concrete store of canonical date strings. -/
theorem C2_witness :
    (∀ d ∈ ["2024-01-01", "2024-01-02"], String.length d =
      String.length "2024-01-02") ∧
    dateExistsContains ["2024-01-01", "2024-01-02"] "2024-01-02" =
      dateExistsEq ["2024-01-01", "2024-01-02"] "2024-01-02" :=
  ⟨by decide, C2_date_lookup_is_exact_equality _ _ (by decide)⟩

/-! ### Claim C9: non-numeric amount inputs -/

/-- C9 counterexample: a non-numeric opening balance in the first-day
dialog is not rejected.  `get_data` silently substitutes `(0, 0)`
(lines 79-81) and `show_first_day_dialog` then writes a bootstrap row
with those defaulted balances into the ledger (line 608), so the stored
ledger does change. -/
theorem C9_counterexample :
    getData .invalid (.num 7) = (0, 0) ∧
    showFirstDayDialog [] 5 .invalid (.num 7) = [initialRow 4 0 0] ∧
    showFirstDayDialog [] 5 .invalid (.num 7) ≠ [] := by
  refine ⟨rfl, by decide, by decide⟩

/-- C9 as amended: a non-numeric income, withdrawal or expense amount is
rejected with an error notice and leaves all prior state unchanged
(`add_expense` keeps the expense list, `calculate_totals` returns no
row, so nothing reaches `save_data`); a non-numeric opening balance in
the first-day dialog, however, is silently replaced by the defaults
`(0, 0)` rather than rejected. -/
theorem C9_invalid_amount_handling :
    (∀ (expenses : List (String × Int)) (name : String),
        addExpense expenses name .invalid = (expenses, true)) ∧
    (∀ date creditT withdrawT lastC lastK expenses,
        calculateTotals date .invalid creditT withdrawT lastC lastK expenses
          = none) ∧
    (∀ date cashT withdrawT lastC lastK expenses,
        calculateTotals date cashT .invalid withdrawT lastC lastK expenses
          = none) ∧
    (∀ date cashT creditT lastC lastK expenses,
        calculateTotals date cashT creditT .invalid lastC lastK expenses
          = none) ∧
    (∀ kT, getData .invalid kT = (0, 0)) ∧
    (∀ cT, getData cT .invalid = (0, 0)) := by
  refine ⟨fun _ _ => rfl, fun _ _ _ _ _ _ => rfl, ?_, ?_, fun _ => rfl, ?_⟩
  · intro date cashT withdrawT lastC lastK expenses
    cases cashT <;> rfl
  · intro date cashT creditT lastC lastK expenses
    cases cashT <;> cases creditT <;> rfl
  · intro cT
    cases cT <;> rfl

/-! ### Claim C10: expense editing targets the first matching pair -/

/-- C10: `edit_expense` rewrites and `delete_expense` removes exactly the
first pair equal to the selected `(name, amount)`, leaving every earlier
non-matching pair and every later (possibly duplicate) pair untouched;
with no matching pair both leave the list unchanged. -/
theorem C10_expense_first_match (pre post : List (String × Int))
    (selName newName : String) (selAmount newAmount : Int)
    (hpre : ∀ p ∈ pre, ¬(p.1 = selName ∧ p.2 = selAmount)) :
    editExpense (pre ++ (selName, selAmount) :: post)
        selName selAmount newName newAmount
      = pre ++ (newName, newAmount) :: post ∧
    deleteExpense (pre ++ (selName, selAmount) :: post) selName selAmount
      = pre ++ post ∧
    (∀ l : List (String × Int),
        (∀ p ∈ l, ¬(p.1 = selName ∧ p.2 = selAmount)) →
        editExpense l selName selAmount newName newAmount = l ∧
        deleteExpense l selName selAmount = l) := by
  refine ⟨?_, ?_, ?_⟩
  · induction pre with
    | nil => simp [editExpense]
    | cons p pre ih =>
        obtain ⟨n, a⟩ := p
        have hcond : (n == selName && a == selAmount) = false := by
          have := hpre (n, a) (by simp)
          simp only [not_and] at this
          by_cases hn : n = selName
          · simp [hn, this hn]
          · simp [hn]
        simp only [List.cons_append, editExpense, hcond, Bool.false_eq_true,
          if_false, List.cons.injEq, true_and]
        exact ih (fun x hx => hpre x (by simp [hx]))
  · induction pre with
    | nil => simp [deleteExpense]
    | cons p pre ih =>
        obtain ⟨n, a⟩ := p
        have hcond : (n == selName && a == selAmount) = false := by
          have := hpre (n, a) (by simp)
          simp only [not_and] at this
          by_cases hn : n = selName
          · simp [hn, this hn]
          · simp [hn]
        simp only [List.cons_append, deleteExpense, hcond, Bool.false_eq_true,
          if_false, List.cons.injEq, true_and]
        exact ih (fun x hx => hpre x (by simp [hx]))
  · intro l hl
    induction l with
    | nil => exact ⟨rfl, rfl⟩
    | cons p rest ih =>
        obtain ⟨n, a⟩ := p
        have hcond : (n == selName && a == selAmount) = false := by
          have := hl (n, a) (by simp)
          simp only [not_and] at this
          by_cases hn : n = selName
          · simp [hn, this hn]
          · simp [hn]
        have hrest := ih (fun x hx => hl x (by simp [hx]))
        simp [editExpense, deleteExpense, hcond, hrest.1, hrest.2]

/-! ### Claim C1: the forward-consistency invariant -/

theorem getLast?_eq_getD (l : List DailyRecord) (h : l ≠ []) :
    l.getLast? = some (l.getD (l.length - 1) emptyRec) := by
  induction l with
  | nil => exact absurd rfl h
  | cons x rest ih =>
      cases rest with
      | nil => rfl
      | cons y t =>
          rw [List.getLast?_cons_cons, ih (by simp)]
          have hshape : (x :: y :: t).getD ((x :: y :: t).length - 1) emptyRec
              = (y :: t).getD ((y :: t).length - 1) emptyRec := by
            simp [List.getD_cons_succ]
          rw [hshape]

theorem exists_split_of_match (df : List DailyRecord) (dd : Nat)
    (hs : List.Pairwise dateLt df)
    (hmatch : df.any (fun r => r.date == dd) = true) :
    ∃ A x B, df = A ++ x :: B ∧ x.date = dd ∧
      (∀ a ∈ A, a.date < dd) ∧ (∀ b ∈ B, dd < b.date) := by
  simp only [List.any_eq_true, beq_iff_eq] at hmatch
  obtain ⟨x, hx, hxd⟩ := hmatch
  obtain ⟨A, B, rfl⟩ := List.append_of_mem hx
  refine ⟨A, x, B, rfl, hxd, ?_, ?_⟩
  · intro a ha
    have hrel := (List.pairwise_append.mp hs).2.2 a ha x (by simp)
    rw [← hxd]
    exact hrel
  · intro b hb
    have hxB := List.pairwise_cons.mp (List.pairwise_append.mp hs).2.1
    rw [← hxd]
    exact hxB.1 b hb

theorem exists_split_of_sorted_ne (df : List DailyRecord) (dd : Nat)
    (hs : List.Pairwise dateLt df) (hne : ∀ a ∈ df, a.date ≠ dd) :
    ∃ A B, df = A ++ B ∧ (∀ a ∈ A, a.date < dd) ∧ (∀ b ∈ B, dd < b.date) := by
  induction df with
  | nil => exact ⟨[], [], rfl, by simp, by simp⟩
  | cons d tl ih =>
      have hpair := List.pairwise_cons.mp hs
      rcases Nat.lt_or_ge d.date dd with hlt | hge
      · obtain ⟨A, B, heq, hA, hB⟩ :=
          ih hpair.2 (fun a ha => hne a (by simp [ha]))
        refine ⟨d :: A, B, by simp [heq], ?_, hB⟩
        intro a ha
        rcases List.mem_cons.mp ha with h | h
        · subst h; exact hlt
        · exact hA a h
      · have hgt : dd < d.date :=
          Nat.lt_of_le_of_ne hge (fun h => hne d (by simp) h.symm)
        refine ⟨[], d :: tl, rfl, by simp, ?_⟩
        intro b hb
        rcases List.mem_cons.mp hb with h | h
        · subst h; exact hgt
        · exact Nat.lt_trans hgt (hpair.1 b h)

theorem link_shift (a b : DailyRecord) (dc dk : Int) (h : chainLink a b) :
    chainLink (shiftRec a dc dk) (shiftRec b dc dk) := by
  obtain ⟨h1, h2⟩ := h
  constructor
  · show b.totalCredit + dc = a.totalCredit + dc + b.credit - b.creditWithdraw
    omega
  · show b.totalCash + dk
      = a.totalCash + dk + b.cash + b.creditWithdraw - b.totalExpenses
    omega

theorem chain_rebuild (A B : List DailyRecord) (data : DailyRecord)
    (dc dk : Int)
    (hcA : List.Chain' chainLink A) (hcB : List.Chain' chainLink B)
    (hlast : ∀ a, A.getLast? = some a → chainLink a data)
    (hhead : ∀ b, B.head? = some b → chainLink data (shiftRec b dc dk)) :
    List.Chain' chainLink
      (A ++ data :: B.map (fun r => shiftRec r dc dk)) := by
  rw [List.chain'_append]
  refine ⟨hcA, ?_, ?_⟩
  · rw [List.chain'_cons']
    constructor
    · intro y hy
      cases B with
      | nil => simp at hy
      | cons b t =>
          simp only [List.map_cons, List.head?_cons, Option.mem_def,
            Option.some.injEq] at hy
          rw [← hy]
          exact hhead b rfl
    · rw [List.chain'_map]
      exact hcB.imp (fun a b h => link_shift a b dc dk h)
  · intro x hx y hy
    simp only [List.head?_cons, Option.mem_def, Option.some.injEq] at hy
    rw [← hy]
    exact hlast x (Option.mem_def.mp hx)

theorem pairwise_rebuild (A B : List DailyRecord) (data : DailyRecord)
    (dc dk : Int)
    (hpA : List.Pairwise dateLt A) (hpB : List.Pairwise dateLt B)
    (hA : ∀ a ∈ A, a.date < data.date) (hB : ∀ b ∈ B, data.date < b.date) :
    List.Pairwise dateLt
      (A ++ data :: B.map (fun r => shiftRec r dc dk)) := by
  rw [List.pairwise_append]
  refine ⟨hpA, ?_, ?_⟩
  · rw [List.pairwise_cons]
    constructor
    · intro y hy
      obtain ⟨b, hb, rfl⟩ := List.mem_map.mp hy
      exact hB b hb
    · rw [List.pairwise_map]
      exact hpB.imp (fun h => h)
  · intro a ha y hy
    rcases List.mem_cons.mp hy with rfl | hy
    · exact hA a ha
    · obtain ⟨b, hb, rfl⟩ := List.mem_map.mp hy
      exact Nat.lt_trans (hA a ha) (hB b hb)

/-- `save_data` preserves well-formedness of the store for every row the
UI pipeline can hand it. -/
theorem inv_preserved (df : List DailyRecord) (data : DailyRecord)
    (hinv : Inv df) (hv : validSave df data = true) :
    Inv (saveData df data) := by
  obtain ⟨hsort, hchain, hhead⟩ := hinv
  by_cases hmatch : df.any (fun r => r.date == data.date) = true
  · -- the date exists: edit in place
    obtain ⟨A, x, B, rfl, hxd, hA, hB⟩ :=
      exists_split_of_match df data.date hsort hmatch
    have hAne : ∀ a ∈ A, a.date ≠ data.date :=
      fun a ha => Nat.ne_of_lt (hA a ha)
    have hfind : (A ++ x :: B).findIdx (fun r => r.date == data.date)
        = A.length := findIdx_split_at A B x data.date hxd hAne
    simp only [validSave, hmatch, if_true, hfind, Bool.and_eq_true,
      decide_eq_true_eq] at hv
    obtain ⟨hpos, hcons⟩ := hv
    have hA0 : A ≠ [] := by
      intro h
      subst h
      simp at hpos
    have hAlt : A.length - 1 < A.length :=
      Nat.sub_lt (List.length_pos.mpr hA0) Nat.one_pos
    rw [List.getD_append A (x :: B) emptyRec (A.length - 1) hAlt] at hcons
    rw [consistentWith, Bool.and_eq_true, beq_iff_eq, beq_iff_eq] at hcons
    have hsA := (List.pairwise_append.mp hsort).1
    have hsXB := (List.pairwise_append.mp hsort).2.1
    have hcparts := List.chain'_append.mp hchain
    have hcxB := List.chain'_cons'.mp hcparts.2.1
    rw [saveData_edit A B x data hxd hAne]
    refine ⟨?_, ?_, ?_⟩
    · exact pairwise_rebuild A B data _ _ hsA
        (List.pairwise_cons.mp hsXB).2 hA hB
    · apply chain_rebuild A B data _ _ hcparts.1 hcxB.2
      · intro a ha
        rw [getLast?_eq_getD A hA0, Option.some.injEq] at ha
        rw [← ha]
        exact ⟨hcons.1, hcons.2⟩
      · intro b hb
        obtain ⟨e1, e2⟩ := hcxB.1 b (Option.mem_def.mpr hb)
        constructor
        · show b.totalCredit + (data.totalCredit - x.totalCredit)
            = data.totalCredit + b.credit - b.creditWithdraw
          omega
        · show b.totalCash + (data.totalCash - x.totalCash)
            = data.totalCash + b.cash + b.creditWithdraw - b.totalExpenses
          omega
    · intro r hr
      cases A with
      | nil => exact absurd rfl hA0
      | cons a A' =>
          simp only [List.cons_append, List.head?_cons,
            Option.some.injEq] at hr
          rw [← hr]
          exact hhead a rfl
  · -- no record for the date yet
    have hmatchF : df.any (fun r => r.date == data.date) = false := by
      rw [← Bool.not_eq_true]
      exact hmatch
    have hne : ∀ a ∈ df, a.date ≠ data.date := by
      intro a ha heq
      apply hmatch
      simp only [List.any_eq_true, beq_iff_eq]
      exact ⟨a, ha, heq⟩
    by_cases hall : (df.all fun r => decide (data.date < r.date)) = true
    · -- earlier than every stored record: bootstrap insert
      simp only [validSave, hmatchF, Bool.false_eq_true, if_false, hall,
        if_true] at hv
      have hb : ∀ b ∈ df, data.date < b.date := by
        intro b hbm
        exact of_decide_eq_true (List.all_eq_true.mp hall b hbm)
      simp only [flowsZero, Bool.and_eq_true, beq_iff_eq] at hv
      obtain ⟨⟨⟨hz1, hz2⟩, hz3⟩, hz4⟩ := hv
      cases df with
      | nil =>
          have hsv : saveData [] data = [data] := rfl
          rw [hsv]
          refine ⟨by simp, by simp, ?_⟩
          intro r hr
          simp only [List.head?_cons, Option.some.injEq] at hr
          rw [← hr]
          simp [flowsZero, hz1, hz2, hz3, hz4]
      | cons d tl =>
          rw [saveData_front_insert (d :: tl) data (by simp) hb]
          have hdz := hhead d rfl
          simp only [flowsZero, Bool.and_eq_true, beq_iff_eq] at hdz
          obtain ⟨⟨⟨hd1, hd2⟩, hd3⟩, hd4⟩ := hdz
          refine ⟨?_, ?_, ?_⟩
          · exact pairwise_rebuild [] (d :: tl) data _ _ (by simp) hsort
              (by simp) hb
          · apply chain_rebuild [] (d :: tl) data _ _ List.chain'_nil hchain
            · intro a ha
              simp at ha
            · intro b hbq
              simp only [List.head?_cons, Option.some.injEq] at hbq
              rw [← hbq]
              constructor
              · show d.totalCredit +
                    (data.totalCredit
                      - ((d :: tl).getD 0 emptyRec).totalCredit
                      + (data.credit - data.creditWithdraw))
                  = data.totalCredit + d.credit - d.creditWithdraw
                have hg0 : (d :: tl).getD 0 emptyRec = d := rfl
                rw [hg0]
                omega
              · show d.totalCash +
                    (data.totalCash - ((d :: tl).getD 0 emptyRec).totalCash
                      + (data.cash + data.creditWithdraw
                        - data.totalExpenses))
                  = data.totalCash + d.cash + d.creditWithdraw
                    - d.totalExpenses
                have hg0 : (d :: tl).getD 0 emptyRec = d := rfl
                rw [hg0]
                omega
          · intro r hr
            simp only [List.head?_cons, Option.some.injEq] at hr
            rw [← hr]
            simp [flowsZero, hz1, hz2, hz3, hz4]
    · -- fresh date behind at least one earlier record
      simp only [validSave, hmatchF, Bool.false_eq_true, if_false, hall] at hv
      obtain ⟨A, B, rfl, hA, hB⟩ :=
        exists_split_of_sorted_ne df data.date hsort hne
      have hA0 : A ≠ [] := by
        intro h
        subst h
        apply hall
        rw [List.all_eq_true]
        intro b hbm
        exact decide_eq_true (hB b (by simpa using hbm))
      have hscan := scanBack_split A B data.date hA0 hA hB
      rw [hscan] at hv
      have hAlt : A.length - 1 < A.length :=
        Nat.sub_lt (List.length_pos.mpr hA0) Nat.one_pos
      rw [List.getD_append A B emptyRec (A.length - 1) hAlt] at hv
      rw [consistentWith, Bool.and_eq_true, beq_iff_eq, beq_iff_eq] at hv
      have hsA := (List.pairwise_append.mp hsort).1
      have hsB := (List.pairwise_append.mp hsort).2.1
      have hcparts := List.chain'_append.mp hchain
      rw [saveData_fresh_insert A B data hA0 hA hB]
      refine ⟨pairwise_rebuild A B data _ _ hsA hsB hA hB, ?_, ?_⟩
      · apply chain_rebuild A B data _ _ hcparts.1 hcparts.2.1
        · intro a ha
          rw [getLast?_eq_getD A hA0, Option.some.injEq] at ha
          rw [← ha]
          exact ⟨hv.1, hv.2⟩
        · intro b hbq
          have hga : A.getD (A.length - 1) emptyRec ∈ A.getLast? :=
            Option.mem_def.mpr (getLast?_eq_getD A hA0)
          obtain ⟨e1, e2⟩ := hcparts.2.2 (A.getD (A.length - 1) emptyRec)
            hga b (Option.mem_def.mpr hbq)
          constructor
          · show b.totalCredit + (data.credit - data.creditWithdraw)
              = data.totalCredit + b.credit - b.creditWithdraw
            omega
          · show b.totalCash
                + (data.cash + data.creditWithdraw - data.totalExpenses)
              = data.totalCash + b.cash + b.creditWithdraw - b.totalExpenses
            omega
      · intro r hr
        cases A with
        | nil => exact absurd rfl hA0
        | cons a A' =>
            simp only [List.cons_append, List.head?_cons,
              Option.some.injEq] at hr
            rw [← hr]
            exact hhead a rfl

/-- C1: in every store produced by any sequence of inserts and edits
through `save_data` (fed, as in the application, by `calculate_totals`
over the resolver's opening balances, or by the bootstrap dialog), every
adjacent pair of records in date order satisfies
`cumulative_credit[i] = cumulative_credit[i-1] + credit_income[i] - credit_withdraw[i]` and
`cumulative_cash[i] = cumulative_cash[i-1] + cash_income[i] + credit_withdraw[i] - total_expenses[i]`. -/
theorem C1_forward_consistency (df : List DailyRecord) (h : Reachable df) :
    ∀ i, i + 1 < df.length →
      (df.getD (i + 1) emptyRec).totalCredit
        = (df.getD i emptyRec).totalCredit
          + (df.getD (i + 1) emptyRec).credit
          - (df.getD (i + 1) emptyRec).creditWithdraw ∧
      (df.getD (i + 1) emptyRec).totalCash
        = (df.getD i emptyRec).totalCash + (df.getD (i + 1) emptyRec).cash
          + (df.getD (i + 1) emptyRec).creditWithdraw
          - (df.getD (i + 1) emptyRec).totalExpenses := by
  have hinv : Inv df := by
    induction h with
    | nil =>
        refine ⟨List.Pairwise.nil, List.chain'_nil, ?_⟩
        intro r hr
        simp at hr
    | step hr hv ih => exact inv_preserved _ _ ih hv
  intro i hi
  have hch := hinv.2.1
  have hget := List.chain'_iff_get.mp hch i (by omega)
  have hg1 : df.getD i emptyRec = df.get ⟨i, by omega⟩ := by
    rw [List.getD_eq_getElem df emptyRec (by omega : i < df.length)]
    rfl
  have hg2 : df.getD (i + 1) emptyRec = df.get ⟨i + 1, by omega⟩ := by
    rw [List.getD_eq_getElem df emptyRec (by omega : i + 1 < df.length)]
    rfl
  rw [hg1, hg2]
  exact ⟨hget.1, hget.2⟩

/-- Witness for C1: a bootstrap row saved into the empty store, followed
by a first trading day computed from its opening balances. -/
theorem C1_witness :
    ((saveData (saveData [] ⟨4, 0, 0, 0, 0, 10, 20, 0, []⟩)
        ⟨5, 10, 20, 5, 30, 25, 32, 3, [("ice", 3)]⟩).getD 1
        emptyRec).totalCredit
      = ((saveData (saveData [] ⟨4, 0, 0, 0, 0, 10, 20, 0, []⟩)
          ⟨5, 10, 20, 5, 30, 25, 32, 3, [("ice", 3)]⟩).getD 0
          emptyRec).totalCredit
        + ((saveData (saveData [] ⟨4, 0, 0, 0, 0, 10, 20, 0, []⟩)
            ⟨5, 10, 20, 5, 30, 25, 32, 3, [("ice", 3)]⟩).getD 1
            emptyRec).credit
        - ((saveData (saveData [] ⟨4, 0, 0, 0, 0, 10, 20, 0, []⟩)
            ⟨5, 10, 20, 5, 30, 25, 32, 3, [("ice", 3)]⟩).getD 1
            emptyRec).creditWithdraw ∧
    ((saveData (saveData [] ⟨4, 0, 0, 0, 0, 10, 20, 0, []⟩)
        ⟨5, 10, 20, 5, 30, 25, 32, 3, [("ice", 3)]⟩).getD 1
        emptyRec).totalCash
      = ((saveData (saveData [] ⟨4, 0, 0, 0, 0, 10, 20, 0, []⟩)
          ⟨5, 10, 20, 5, 30, 25, 32, 3, [("ice", 3)]⟩).getD 0
          emptyRec).totalCash
        + ((saveData (saveData [] ⟨4, 0, 0, 0, 0, 10, 20, 0, []⟩)
            ⟨5, 10, 20, 5, 30, 25, 32, 3, [("ice", 3)]⟩).getD 1
            emptyRec).cash
        + ((saveData (saveData [] ⟨4, 0, 0, 0, 0, 10, 20, 0, []⟩)
            ⟨5, 10, 20, 5, 30, 25, 32, 3, [("ice", 3)]⟩).getD 1
            emptyRec).creditWithdraw
        - ((saveData (saveData [] ⟨4, 0, 0, 0, 0, 10, 20, 0, []⟩)
            ⟨5, 10, 20, 5, 30, 25, 32, 3, [("ice", 3)]⟩).getD 1
            emptyRec).totalExpenses :=
  C1_forward_consistency _
    (Reachable.step (Reachable.step Reachable.nil (by decide)) (by decide))
    0 (by decide)

/-- Witness for C10 on a concrete list with a duplicate pair. -/
theorem C10_witness :
    editExpense [("tea", 1), ("ice", 3), ("ice", 3)] "ice" 3 "sugar" 5
      = [("tea", 1), ("sugar", 5), ("ice", 3)] ∧
    deleteExpense [("tea", 1), ("ice", 3), ("ice", 3)] "ice" 3
      = [("tea", 1), ("ice", 3)] ∧
    editExpense [("tea", 1)] "ice" 3 "sugar" 5 = [("tea", 1)] ∧
    deleteExpense [("tea", 1)] "ice" 3 = [("tea", 1)] := by
  have h := C10_expense_first_match [("tea", 1)] [("ice", 3)]
    "ice" "sugar" 3 5 (by decide)
  have h2 := h.2.2 [("tea", 1)] (by decide)
  exact ⟨h.1, h.2.1, h2.1, h2.2⟩

end EzYawmya
